import Mathlib

/-!
Verification development for the ProjetDL reinforcement-learning laboratory.

The Rust sources (crates `environments` and `algorithms`) are shallowly
embedded below.  `f32` values are modelled as rationals (`ℚ`); the claims
under study concern the algebraic form of the updates and the control
structure of the loops, not floating-point rounding.  `Vec` indexing that
can panic, together with explicit `panic!` calls, is modelled by
`Option`-valued functions (`none` = the program aborts).  Q-tables and
weight tables are modelled as total functions `Nat → Nat → ℚ`, matching
the dense zero-initialised 2-D arrays of the sources; the sources only
index them inside the construction-time bounds.
-/

namespace ProjetDL

/-- Rational value of Rust's `f32::MIN`, the seed of the

    `.fold(f32::MIN, f32::max)` reductions in the sources:
    `-(2 - 2^-23) * 2^127 = -(2^128 - 2^104)` (literal, so that kernel
    evaluation does not get stuck on `Monoid.npow`). -/
def f32MIN : ℚ := -340282346638528859811704183484516925440

/-- Stand-in for `f32::NEG_INFINITY` in `ValueIteration::get_best_action`.

    It is only ever compared against itself there (both lookups take the
    same out-of-bounds branch), so any designated constant is faithful. -/
def f32NEGINF : ℚ := f32MIN - 1

/-- First-strict-maximum scan used by most `get_best_action`

    implementations: start from `(a0, val a0)` and replace the best pair
    whenever a strictly larger value is seen. -/
def bestScan (val : Nat → ℚ) (b : Nat × ℚ) (l : List Nat) : Nat × ℚ :=
  l.foldl (fun b a => if val a > b.2 then (a, val a) else b) b

/-- Rust `Iterator::max_by` keeps the accumulator only when it compares

    strictly greater, hence returns the last maximal element. -/
def lastMaxScan (val : Nat → ℚ) (a0 : Nat) (l : List Nat) : Nat :=
  l.foldl (fun acc a => if val acc > val a then acc else a) a0

namespace QLearning

/-- `QLearning::get_best_action` (q_learning.rs, lines 84-97): start from

    `available_actions[0]` (index panic on an empty slice, modelled as
    `none`) and scan the remaining actions for a strictly better Q-value. -/
def getBestAction (q : Nat → Nat → ℚ) (state : Nat) (availableActions : List Nat) :
    Option Nat :=
  match availableActions with
  | [] => none
  | a0 :: rest => some (bestScan (q state) (a0, q state a0) rest).1

end QLearning

namespace Sarsa

/-- `Sarsa::get_best_action` (sarsa.rs, lines 118-135): explicit panic on an

    empty slice, then the same first-strict-maximum scan as Q-Learning. -/
def getBestAction (q : Nat → Nat → ℚ) (state : Nat) (availableActions : List Nat) :
    Option Nat :=
  match availableActions with
  | [] => none
  | a0 :: rest => some (bestScan (q state) (a0, q state a0) rest).1

end Sarsa

namespace DynaQ

/-- `DynaQ::get_best_action` (dyna_q.rs, lines 127-140): identical scan. -/
def getBestAction (q : Nat → Nat → ℚ) (state : Nat) (availableActions : List Nat) :
    Option Nat :=
  match availableActions with
  | [] => none
  | a0 :: rest => some (bestScan (q state) (a0, q state a0) rest).1

end DynaQ

namespace DQN

/-- `DQN::get_best_action` (dqn.rs, lines 160-171): the same scan over the

    per-state-action weight table. -/
def getBestAction (weights : Nat → Nat → ℚ) (state : Nat) (availableActions : List Nat) :
    Option Nat :=
  match availableActions with
  | [] => none
  | a0 :: rest => some (bestScan (weights state) (a0, weights state a0) rest).1

end DQN

namespace MonteCarloControl

/-- `MonteCarloControl::get_best_action` (on_montecarlo_control.rs,

    lines 138-151): the same scan over `q_values`. -/
def getBestAction (qValues : Nat → Nat → ℚ) (state : Nat) (availableActions : List Nat) :
    Option Nat :=
  match availableActions with
  | [] => none
  | a0 :: rest => some (bestScan (qValues state) (a0, qValues state a0) rest).1

end MonteCarloControl

namespace Reinforce

/-- `Reinforce::get_best_action` (reinforce.rs, lines 92-103): index panic on

    an empty slice, then a scan over the whole list (not `skip(1)`) against
    the softmax probabilities `probs` of the state's logits row. -/
def getBestAction (probs : Nat → ℚ) (availableActions : List Nat) : Option Nat :=
  match availableActions with
  | [] => none
  | a0 :: _ => some (bestScan probs (a0, probs a0) availableActions).1

end Reinforce

namespace OffPolicyMonteCarloControl

/-- `OffPolicyMonteCarloControl::get_best_action` (off_montecarlo_control.rs,

    lines 184-197): returns 0 on an empty list (no failure), otherwise
    `max_by` over the Q-values, which keeps the last maximal action. -/
def getBestAction (qValues : Nat → Nat → ℚ) (state : Nat) (availableActions : List Nat) :
    Nat :=
  match availableActions with
  | [] => 0
  | a0 :: rest => lastMaxScan (qValues state) a0 rest

end OffPolicyMonteCarloControl

namespace ValueIteration

/-- Q-value lookup of `ValueIteration::get_best_action` (value_iteration.rs,

    lines 122-126): guarded by `state < self.q_values.len()`, falling back to
    negative infinity out of bounds. -/
def lookupQ (qValues : Nat → Nat → ℚ) (numStates state a : Nat) : ℚ :=
  if state < numStates then qValues state a else f32NEGINF

/-- `ValueIteration::get_best_action` (value_iteration.rs, lines 116-130):

    explicit panic on an empty list, otherwise `max_by` (last maximum) over
    the guarded Q-value lookup. -/
def getBestAction (qValues : Nat → Nat → ℚ) (numStates state : Nat)
    (availableActions : List Nat) : Option Nat :=
  match availableActions with
  | [] => none
  | a0 :: rest => some (lastMaxScan (lookupQ qValues numStates state) a0 rest)

end ValueIteration

namespace PolicyIteration

/-- Loop body of `PolicyIteration::get_best_action` (policy_iteration.rs,

    lines 165-175): return the stored policy action as soon as it is seen,
    otherwise track a fallback via the (constant) state value. -/
def piScan (policy : Nat → Nat) (value : Nat → ℚ) (state : Nat) :
    List Nat → Nat → ℚ → Nat
  | [], best, _ => best
  | a :: rest, best, maxValue =>
    if policy state = a then a
    else if value state > maxValue then piScan policy value state rest a (value state)
    else piScan policy value state rest best maxValue

/-- `PolicyIteration::get_best_action` (policy_iteration.rs, lines 157-178):

    returns 0 on an empty list (no failure), otherwise scans with fallback. -/
def getBestAction (policy : Nat → Nat) (value : Nat → ℚ) (state : Nat)
    (availableActions : List Nat) : Nat :=
  match availableActions with
  | [] => 0
  | a0 :: _ => piScan policy value state availableActions a0 f32MIN

end PolicyIteration

namespace LineWorld

/-- Initial internal state of `LineWorld::new` (line_world.rs, line 13). -/
def init : Nat := 2

/-- `LineWorld::is_game_over` (line_world.rs, lines 38-40). -/
def isGameOver (state : Nat) : Bool := state = 0 || state = 4

/-- `LineWorld::available_actions` (line_world.rs, lines 42-50). -/
def availableActions (state : Nat) : List Nat :=
  if state = 0 then [1] else if state = 4 then [0] else [0, 1]

/-- `LineWorld::score` (line_world.rs, lines 52-58). -/
def score (state : Nat) : ℚ := if isGameOver state then 1 else 0

/-- `LineWorld::step` (line_world.rs, lines 60-66). -/
def step (state action : Nat) : Nat :=
  if action = 0 ∧ state > 0 then state - 1
  else if action = 1 ∧ state < 4 then state + 1
  else state

end LineWorld

/-- State of `GridWorld` (grid_world.rs, lines 4-8); `new` sets

    `pos_x = 1, pos_y = 1, size = 4`. -/
structure GridWorld where
  posX : Nat
  posY : Nat
  size : Nat

namespace GridWorld

/-- `GridWorld::new` (grid_world.rs, lines 11-17). -/
def new : GridWorld := ⟨1, 1, 4⟩

/-- `GridWorld::is_game_over` (grid_world.rs, lines 36-39). -/
def isGameOver (g : GridWorld) : Bool :=
  (g.posX = 0 && g.posY = 0) || (g.posX = g.size - 1 && g.posY = g.size - 1)

/-- `GridWorld::available_actions` (grid_world.rs, lines 41-68): empty when

    the game is over, otherwise pushes 0 (up), 1 (right), 2 (down), 3 (left)
    in that order when the corresponding move stays on the grid. -/
def availableActions (g : GridWorld) : List Nat :=
  if isGameOver g then []
  else
    (if g.posY > 0 then [0] else []) ++
    (if g.posX < g.size - 1 then [1] else []) ++
    (if g.posY < g.size - 1 then [2] else []) ++
    (if g.posX > 0 then [3] else [])

end GridWorld

/-- State of `RPS` (rps.rs, lines 6-12); only `current_round` and

    `max_rounds` feed `is_game_over` and `available_actions`;
    `new_with_mode` sets `current_round = 0, max_rounds = 2`. -/
structure RPS where
  currentRound : Nat
  maxRounds : Nat

namespace RPS

/-- `RPS::is_game_over` (rps.rs, lines 97-99). -/
def isGameOver (e : RPS) : Bool := e.maxRounds ≤ e.currentRound

/-- `RPS::available_actions` (rps.rs, lines 101-107). -/
def availableActions (e : RPS) : List Nat :=
  if isGameOver e then [] else [0, 1, 2]

end RPS

/-- Interface consumed by the training loops (the `Environment` trait of

    environments/src/lib.rs), specialised to a deterministic simulator whose
    internal state is encoded as a `Nat`. -/
structure EnvModel where
  stepF : Nat → Nat → Nat
  scoreF : Nat → ℚ
  gameOverF : Nat → Bool
  availF : Nat → List Nat
  stateIdF : Nat → Nat

/-- The `EnvModel` realised by `LineWorld` (its `state_id` is the state). -/
def lineEnv : EnvModel :=
  ⟨LineWorld.step, LineWorld.score, LineWorld.isGameOver, LineWorld.availableActions, id⟩

/-- Observation tuple driving one update step of Q-Learning or Dyna-Q: the

    values the training loop reads from the environment around one `step`
    call (state, chosen action, score delta, next state, the next state's
    available actions, and whether the next state is terminal). -/
structure Exp where
  s : Nat
  a : Nat
  r : ℚ
  sNext : Nat
  availNext : List Nat
  term : Bool

namespace QLearning

/-- Body of the `while !env.is_game_over()` loop of `QLearning::train`

    (q_learning.rs, lines 54-75), given the chosen action `a`: step the
    environment, take the score delta as reward, bootstrap with
    `aa_next.iter().map(..).fold(f32::MIN, f32::max)` unless the next state
    is terminal, and update the single entry `q[s][a]`. -/
def trainStep (alpha gamma : ℚ) (env : EnvModel) (q : Nat → Nat → ℚ) (es a : Nat) :
    (Nat → Nat → ℚ) × Nat :=
  let s := env.stateIdF es
  let es2 := env.stepF es a
  let r := env.scoreF es2 - env.scoreF es
  let sNext := env.stateIdF es2
  let maxQNext : ℚ :=
    if env.gameOverF es2 then 0
    else ((env.availF es2).map (q sNext)).foldl max f32MIN
  (fun s0 a0 =>
    if s0 = s ∧ a0 = a then q s a + alpha * (r + gamma * maxQNext - q s a) else q s0 a0,
   es2)

/-- Episode loop of `QLearning::train` (q_learning.rs, lines 44-76).  Each

    entry of `choices` resolves one epsilon-greedy draw: `some i` is the
    exploring branch (`aa.choose`, modelled as picking index `i`, which
    fails on an empty list like `unwrap`), `none` the exploiting branch via
    `get_best_action`.  Applies `trainStep` once per loop iteration. -/
def runEpisode (alpha gamma : ℚ) (env : EnvModel) :
    List (Option Nat) → (Nat → Nat → ℚ) → Nat → Option ((Nat → Nat → ℚ) × Nat)
  | [], q, es => some (q, es)
  | c :: rest, q, es =>
    if env.gameOverF es then some (q, es)
    else
      let aa := env.availF es
      let pick : Option Nat :=
        match c with
        | some i => aa.get? i
        | none => getBestAction q (env.stateIdF es) aa
      match pick with
      | none => none
      | some a =>
        let next := trainStep alpha gamma env q es a
        runEpisode alpha gamma env rest next.1 next.2

/-- One Q-Learning update driven by an observed experience tuple: exactly

    the update of q_learning.rs, lines 62-73, with the loop's observations
    abstracted into `e`. -/
def expStep (alpha gamma : ℚ) (q : Nat → Nat → ℚ) (e : Exp) : Nat → Nat → ℚ :=
  let maxQNext : ℚ :=
    if e.term then 0 else (e.availNext.map (q e.sNext)).foldl max f32MIN
  fun s0 a0 =>
    if s0 = e.s ∧ a0 = e.a then q e.s e.a + alpha * (e.r + gamma * maxQNext - q e.s e.a)
    else q s0 a0

/-- The `max_q_next` bootstrap computed by `QLearning::train`

    (q_learning.rs, lines 63-70) after stepping from env state `es` with
    action `a`: 0 when the next state is terminal, otherwise the
    `fold(f32::MIN, f32::max)` of the next state's available Q-values. -/
def bootstrapOf (env : EnvModel) (q : Nat → Nat → ℚ) (es a : Nat) : ℚ :=
  if env.gameOverF (env.stepF es a) then 0
  else ((env.availF (env.stepF es a)).map (q (env.stateIdF (env.stepF es a)))).foldl max f32MIN

end QLearning

namespace DynaQ

/-- `DynaQ::update_q_value` (dyna_q.rs, lines 41-53): bootstrap is 0 when

    `next_actions` is empty, otherwise the `fold(f32::MIN, f32::max)` of the
    listed next-state Q-values. -/
def updateQValue (alpha gamma : ℚ) (q : Nat → Nat → ℚ) (state action : Nat) (reward : ℚ)
    (nextState : Nat) (nextActions : List Nat) : Nat → Nat → ℚ :=
  let maxQNext : ℚ :=
    if nextActions.isEmpty then 0
    else (nextActions.map (q nextState)).foldl max f32MIN
  fun s0 a0 =>
    if s0 = state ∧ a0 = action then
      q state action + alpha * (reward + gamma * maxQNext - q state action)
    else q s0 a0

/-- The Dyna-Q transition cache `model: HashMap<(usize, usize), (f32, usize)>`. -/
def Model := List ((Nat × Nat) × ℚ × Nat)

/-- `HashMap::insert`: replace any binding of the key. -/
def modelInsert (m : Model) (k : Nat × Nat) (v : ℚ × Nat) : Model :=
  (k, v) :: m.filter (fun p => p.1 ≠ k)

/-- `DynaQ::planning_step` (dyna_q.rs, lines 55-69): sample a previously

    seen (state, action) pair (the RNG draw is the `chooser` oracle; `none`
    models the empty-model early return), then apply `update_q_value` with
    `next_actions = (0..q_table[next_state].len()).collect()`, that is, all
    action indices `0..num_actions`. -/
def planningStep (alpha gamma : ℚ) (numActions : Nat)
    (chooser : Model → Option ((Nat × Nat) × ℚ × Nat)) (q : Nat → Nat → ℚ) (m : Model) :
    Nat → Nat → ℚ :=
  match chooser m with
  | none => q
  | some ((state, action), reward, nextState) =>
    updateQValue alpha gamma q state action reward nextState (List.range numActions)

/-- Body of the `while` loop of `DynaQ::train` (dyna_q.rs, lines 103-118)

    driven by an observed experience tuple: real-experience update with the
    environment's `available_actions()` of the next state, model insertion,
    then `planning_steps` planning updates. -/
def trainExpStep (alpha gamma : ℚ) (numActions planningSteps : Nat)
    (chooser : Model → Option ((Nat × Nat) × ℚ × Nat))
    (st : (Nat → Nat → ℚ) × Model) (e : Exp) : (Nat → Nat → ℚ) × Model :=
  let q1 := updateQValue alpha gamma st.1 e.s e.a e.r e.sNext e.availNext
  let m1 := modelInsert st.2 (e.s, e.a) (e.r, e.sNext)
  ((List.range planningSteps).foldl
      (fun q _ => planningStep alpha gamma numActions chooser q m1) q1,
   m1)

end DynaQ

/-- Tabular MDP model consumed by the planning algorithms: the

    `transition_probabilities()` and `reward_function()` arrays. -/
structure MDPModel where
  numStates : Nat
  numActions : Nat
  P : Nat → Nat → Nat → ℚ
  R : Nat → Nat → ℚ

/-- One Bellman backup sum

    `Σ_{s'} P[s][a][s'] * (R[s][a] + γ * v[s'])`, the inner loop shared by
    policy_iteration.rs (lines 37-41, 68-72, 97-101) and value_iteration.rs
    (lines 44-48). -/
def bellmanQ (mdl : MDPModel) (gamma : ℚ) (v : Nat → ℚ) (s a : Nat) : ℚ :=
  (List.range mdl.numStates).foldl
    (fun acc sn => acc + mdl.P s a sn * (mdl.R s a + gamma * v sn)) 0

namespace ValueIteration

/-- Mutable state of `ValueIteration`: `values`, `policy`, `q_values`. -/
structure VIState where
  values : Nat → ℚ
  policy : Nat → Nat
  qValues : Nat → Nat → ℚ

/-- Rust `Iterator::max_by` over `(index, value)` pairs of `f 0, .., f (n-1)`:

    keeps the accumulator only when strictly greater, so returns the last
    maximal index together with its value; `none` on an empty range. -/
def lastMaxPair (f : Nat → ℚ) (n : Nat) : Option (Nat × ℚ) :=
  match List.range n with
  | [] => none
  | i :: rest => some (rest.foldl (fun acc j => if acc.2 > f j then acc else (j, f j)) (i, f i))

/-- One sweep of the `loop` of `ValueIteration::value_iteration`

    (value_iteration.rs, lines 36-64): for each state in order, recompute the
    Q-row from the current (partially updated, Gauss-Seidel style) values,
    set the value to the row maximum and the policy to the argmax, and
    accumulate the largest absolute value change as `delta`. -/
def viSweep (mdl : MDPModel) (gamma : ℚ) (st : VIState) : VIState × ℚ :=
  (List.range mdl.numStates).foldl
    (fun (acc : VIState × ℚ) s =>
      let st := acc.1
      let qRow : Nat → ℚ := fun a => bellmanQ mdl gamma st.values s a
      let v := st.values s
      let st1 : VIState :=
        { st with qValues := fun s0 a0 =>
            if s0 = s ∧ a0 < mdl.numActions then qRow a0 else st.qValues s0 a0 }
      match lastMaxPair qRow mdl.numActions with
      | none => (st1, max acc.2 |v - st1.values s|)
      | some (bestA, maxQ) =>
        ({ st1 with
            values := fun s0 => if s0 = s then maxQ else st1.values s0,
            policy := fun s0 => if s0 = s then bestA else st1.policy s0 },
         max acc.2 |v - maxQ|))
    (st, 0)

/-- The capped `loop` of `ValueIteration::value_iteration`: sweep, then stop

    when `delta < theta` or the iteration counter reaches `max_iterations`
    (value_iteration.rs, lines 32-69; entered with fuel 1000).  Also returns
    the number of sweeps performed. -/
def viLoop (mdl : MDPModel) (gamma theta : ℚ) : Nat → VIState → VIState × Nat
  | 0, st => (st, 0)
  | fuel + 1, st =>
    let swept := viSweep mdl gamma st
    if swept.2 < theta ∨ fuel = 0 then (swept.1, 1)
    else
      let rest := viLoop mdl gamma theta fuel swept.1
      (rest.1, rest.2 + 1)

/-- `ValueIteration::value_iteration` with its `max_iterations = 1000`. -/
def valueIteration (mdl : MDPModel) (gamma theta : ℚ) (st : VIState) : VIState × Nat :=
  viLoop mdl gamma theta 1000 st

end ValueIteration

namespace PolicyIteration

/-- One sweep of `PolicyIteration::evaluate_policy` (policy_iteration.rs,

    lines 63-81): Bellman expectation backup for the current policy, in
    place, tracking the largest absolute change. -/
def piEvalSweep (mdl : MDPModel) (gamma : ℚ) (policy : Nat → Nat) (v : Nat → ℚ) :
    (Nat → ℚ) × ℚ :=
  (List.range mdl.numStates).foldl
    (fun (acc : (Nat → ℚ) × ℚ) s =>
      let v := acc.1
      let oldValue := v s
      let newValue := bellmanQ mdl gamma v s (policy s)
      (fun s0 => if s0 = s then newValue else v s0, max acc.2 |oldValue - newValue|))
    (v, 0)

/-- Fuelled rendering of the UNCAPPED `loop` of

    `PolicyIteration::evaluate_policy`: sweep, stop only when
    `delta < theta`.  The source loop has no iteration cap, so running out
    of fuel (`none`) means the loop is still running after that many
    sweeps. -/
def piEvalFuel (mdl : MDPModel) (gamma theta : ℚ) (policy : Nat → Nat) :
    Nat → (Nat → ℚ) → Option (Nat → ℚ)
  | 0, v =>
    if (piEvalSweep mdl gamma policy v).2 < theta then some (piEvalSweep mdl gamma policy v).1
    else none
  | fuel + 1, v =>
    if (piEvalSweep mdl gamma policy v).2 < theta then some (piEvalSweep mdl gamma policy v).1
    else piEvalFuel mdl gamma theta policy fuel (piEvalSweep mdl gamma policy v).1

/-- Greedy action of `PolicyIteration::improve_policy` and of the stability

    check (policy_iteration.rs, lines 33-47 and 93-108): first strictly
    better action, starting from `best_action = 0`, `max_value = f32::MIN`. -/
def piGreedy (mdl : MDPModel) (gamma : ℚ) (v : Nat → ℚ) (s : Nat) : Nat :=
  ((List.range mdl.numActions).foldl
    (fun (acc : Nat × ℚ) a =>
      let value := bellmanQ mdl gamma v s a
      if value > acc.2 then (a, value) else acc)
    (0, f32MIN)).1

/-- `PolicyIteration::improve_policy` (policy_iteration.rs, lines 28-59). -/
def improvePolicy (mdl : MDPModel) (gamma : ℚ) (v : Nat → ℚ) (policy : Nat → Nat) :
    Nat → Nat :=
  fun s => if s < mdl.numStates then piGreedy mdl gamma v s else policy s

/-- Fuelled rendering of the UNCAPPED outer `loop` of

    `PolicyIteration::policy_iteration` (policy_iteration.rs, lines 85-113):
    evaluate (itself uncapped, given `evalFuel`), improve, stop when every
    state's policy action is greedy. -/
def policyIterationFuel (mdl : MDPModel) (gamma theta : ℚ) (evalFuel : Nat) :
    Nat → (Nat → Nat) → (Nat → ℚ) → Option ((Nat → Nat) × (Nat → ℚ))
  | 0, policy, v =>
    match piEvalFuel mdl gamma theta policy evalFuel v with
    | none => none
    | some v1 =>
      let policy1 := improvePolicy mdl gamma v1 policy
      if (List.range mdl.numStates).all (fun s => policy1 s = piGreedy mdl gamma v1 s) then
        some (policy1, v1)
      else none
  | fuel + 1, policy, v =>
    match piEvalFuel mdl gamma theta policy evalFuel v with
    | none => none
    | some v1 =>
      let policy1 := improvePolicy mdl gamma v1 policy
      if (List.range mdl.numStates).all (fun s => policy1 s = piGreedy mdl gamma v1 s) then
        some (policy1, v1)
      else policyIterationFuel mdl gamma theta evalFuel fuel policy1 v1

/-- Deterministic three-state reward cycle `0 → 1 → 2 → 0` with rewards

    `(0, 1, -1)` (each transition row is one-hot, so a legitimate MDP).
    Under `gamma = 1` the in-place evaluation sweep maps the value vector
    `(a, b, c)` to `(b, 1 + c, b - 1)`, so starting from the zero vector it
    oscillates with period 2 between `(0, 1, -1)` and `(1, 0, 0)` with
    delta exactly 1 on every sweep.  Every quantity involved is an integer
    of magnitude at most 2, so each f32 operation performed by the source
    is exact and this rational model is bit-exact to the program: the
    uncapped `evaluate_policy` loop genuinely never converges here
    (`1.0 < 1e-6` is false in f32 as well). -/
def divergentModel : MDPModel :=
  ⟨3, 1, fun s _ s' => if s' = (s + 1) % 3 then 1 else 0,
   fun s _ => if s = 0 then 0 else if s = 1 then 1 else -1⟩

end PolicyIteration

namespace MonteCarloControl

/-- Mutable state of `MonteCarloControl` together with the per-episode

    scratch (`g` and the visited set of the processing loop). -/
structure MCState where
  qValues : Nat → Nat → ℚ
  returns : Nat → Nat → List ℚ
  policy : Nat → Nat → ℚ
  visited : List (Nat × Nat)
  g : ℚ

/-- `MonteCarloControl::update_policy` (on_montecarlo_control.rs,

    lines 77-99): first-strict-maximum action over ALL action indices
    (starting from action 0), then epsilon-soft probabilities for the row. -/
def updatePolicy (numActions : Nat) (epsilon : ℚ) (qValues : Nat → Nat → ℚ)
    (policy : Nat → Nat → ℚ) (state : Nat) : Nat → Nat → ℚ :=
  let best := (bestScan (qValues state) (0, qValues state 0) ((List.range numActions).drop 1)).1
  let epsilonProb := epsilon / (numActions : ℚ)
  fun s0 a0 =>
    if s0 = state ∧ a0 < numActions then
      (if a0 = best then 1 - epsilon + epsilonProb else epsilonProb)
    else policy s0 a0

/-- One iteration of the reverse processing loop of

    `MonteCarloControl::train` (on_montecarlo_control.rs, lines 116-132):
    `g = gamma * g + reward`; if the (state, action) pair has not yet been
    seen IN THIS REVERSE TRAVERSAL, push `g` onto its returns list, set the
    Q-value to the arithmetic mean of that list, and refresh the policy
    row. -/
def processStep (numActions : Nat) (epsilon gamma : ℚ) (st : MCState)
    (entry : Nat × Nat × ℚ) : MCState :=
  let s := entry.1
  let a := entry.2.1
  let r := entry.2.2
  let g1 := gamma * st.g + r
  if (s, a) ∈ st.visited then { st with g := g1 }
  else
    let newReturns := st.returns s a ++ [g1]
    let q1 : Nat → Nat → ℚ := fun s0 a0 =>
      if s0 = s ∧ a0 = a then newReturns.sum / (newReturns.length : ℚ) else st.qValues s0 a0
    { qValues := q1,
      returns := fun s0 a0 => if s0 = s ∧ a0 = a then newReturns else st.returns s0 a0,
      policy := updatePolicy numActions epsilon q1 st.policy s,
      visited := (s, a) :: st.visited,
      g := g1 }

/-- Episode processing of `MonteCarloControl::train` (on_montecarlo_control.rs,

    lines 112-132): fresh `g = 0` and visited set, then the reverse
    traversal `episode.iter().enumerate().rev()`. -/
def processEpisode (numActions : Nat) (epsilon gamma : ℚ)
    (episode : List (Nat × Nat × ℚ)) (st : MCState) : MCState :=
  episode.reverse.foldl (processStep numActions epsilon gamma)
    { st with g := 0, visited := [] }

/-- `MonteCarloControl::train` over already-generated episode traces

    (episode generation is the stochastic epsilon-soft rollout; the claim
    under study concerns the processing of the traces). -/
def train (numActions : Nat) (epsilon gamma : ℚ)
    (episodes : List (List (Nat × Nat × ℚ))) (st : MCState) : MCState :=
  episodes.foldl (fun st ep => processEpisode numActions epsilon gamma ep st) st

/-- Construction-time state of `MonteCarloControl::new`

    (on_montecarlo_control.rs, lines 18-32). -/
def initState (numActions : Nat) : MCState :=
  { qValues := fun _ _ => 0, returns := fun _ _ => [],
    policy := fun _ _ => 1 / (numActions : ℚ), visited := [], g := 0 }

/-- Discounted returns `G_t = r_t + γ·G_{t+1}` of an episode, in forward

    order, written from the specification sentence (comparison definition
    for the first-visit claim, not taken from the code). -/
def returnsTo (gamma : ℚ) : List (Nat × Nat × ℚ) → List ℚ
  | [] => []
  | entry :: tl =>
    let gs := returnsTo gamma tl
    (entry.2.2 + gamma * gs.headD 0) :: gs

/-- Return recorded at the first visit, IN FORWARD EPISODE ORDER, of

    (s, a) within an episode; written from the claim sentence (comparison
    definition, not taken from the code). -/
def firstVisitReturn (gamma : ℚ) (episode : List (Nat × Nat × ℚ)) (s a : Nat) : Option ℚ :=
  ((episode.zip (returnsTo gamma episode)).find?
    (fun p => p.1.1 == s && p.1.2.1 == a)).map (fun p => p.2)

/-- Arithmetic mean of the first-visit (forward order) discounted returns

    of (s, a) across the processed episodes: the value the claim asserts
    `Q[s][a]` equals (comparison definition, written from the claim). -/
def specFirstVisitQ (gamma : ℚ) (episodes : List (List (Nat × Nat × ℚ))) (s a : Nat) : ℚ :=
  let gs := episodes.filterMap (fun ep => firstVisitReturn gamma ep s a)
  gs.sum / (gs.length : ℚ)

end MonteCarloControl

namespace OffPolicyMonteCarloControl

/-- `OffPolicyMonteCarloControl::behavior_probability`

    (off_montecarlo_control.rs, lines 74-85). -/
def behaviorProbability (qValues : Nat → Nat → ℚ) (epsilon : ℚ) (action state : Nat)
    (availableActions : List Nat) : ℚ :=
  if availableActions = [] then 1
  else
    let best := getBestAction qValues state availableActions
    if action = best then 1 - epsilon + epsilon / (availableActions.length : ℚ)
    else epsilon / (availableActions.length : ℚ)

/-- State carried through the backward pass of

    `OffPolicyMonteCarloControl::train`. -/
structure PassState where
  qValues : Nat → Nat → ℚ
  cValues : Nat → Nat → ℚ
  policy : Nat → Nat
  g : ℚ
  w : ℚ

/-- Cumulative-weight table after `self.c_values[state][action] += w`

    (off_montecarlo_control.rs, line 154). -/
def cNew (st : PassState) (s a : Nat) : Nat → Nat → ℚ :=
  fun s0 a0 => if s0 = s ∧ a0 = a then st.cValues s a + st.w else st.cValues s0 a0

/-- Q-table after `self.q_values[state][action] += alpha * w * (g - ..)`

    with the adaptive rate `alpha = 1.0 / (c + 1.0)` where `c` is the
    just-incremented cumulative weight (off_montecarlo_control.rs,
    lines 155-159), and `g = γ·g + r` the updated return. -/
def qNew (gamma : ℚ) (st : PassState) (s a : Nat) (r : ℚ) : Nat → Nat → ℚ :=
  fun s0 a0 =>
    if s0 = s ∧ a0 = a then
      st.qValues s a
        + 1 / (cNew st s a s a + 1) * st.w * ((gamma * st.g + r) - st.qValues s a)
    else st.qValues s0 a0

/-- Policy after `self.policy[state] = self.get_best_action(state, ..)`

    against the just-updated Q-table and the environment's current
    available actions (off_montecarlo_control.rs, lines 161-162). -/
def polNew (gamma : ℚ) (availNow : List Nat) (st : PassState) (s a : Nat) (r : ℚ) :
    Nat → Nat :=
  fun s0 => if s0 = s then getBestAction (qNew gamma st s a r) s availNow else st.policy s0

/-- One iteration of the backward pass (off_montecarlo_control.rs,

    lines 151-170): `g = γ·g + r`; `C[s][a] += w`; adaptive learning rate
    `alpha = 1 / (C[s][a] + 1)`; `Q[s][a] += alpha · w · (g − Q[s][a])`;
    refresh `policy[s]` greedily against the environment's CURRENT
    available actions (`availNow`, the env is not stepped during the pass);
    stop when the trace action disagrees with the refreshed greedy policy,
    else divide `w` by the behavior probability when `availNow` is
    non-empty.  The returned flag is false when the pass breaks. -/
def passStep (gamma epsilon : ℚ) (availNow : List Nat) (st : PassState) (s a : Nat)
    (r : ℚ) : PassState × Bool :=
  if a ≠ polNew gamma availNow st s a r s then
    ({ qValues := qNew gamma st s a r, cValues := cNew st s a,
       policy := polNew gamma availNow st s a r, g := gamma * st.g + r, w := st.w }, false)
  else
    ({ qValues := qNew gamma st s a r, cValues := cNew st s a,
       policy := polNew gamma availNow st s a r, g := gamma * st.g + r,
       w := if availNow = [] then st.w
            else st.w / behaviorProbability (qNew gamma st s a r) epsilon a s availNow }, true)

/-- The backward pass over the reversed episode with its early `break`. -/
def backwardPass (gamma epsilon : ℚ) (availNow : List Nat) :
    List (Nat × Nat × ℚ) → PassState → PassState
  | [], st => st
  | entry :: tl, st =>
    let stepped := passStep gamma epsilon availNow st entry.1 entry.2.1 entry.2.2
    if stepped.2 then backwardPass gamma epsilon availNow tl stepped.1 else stepped.1

/-- Per-episode processing of `OffPolicyMonteCarloControl::train`

    (off_montecarlo_control.rs, lines 146-171): `g = 0`, `w = 1`, then the
    backward pass over the reversed trace. -/
def trainEpisodePass (gamma epsilon : ℚ) (availNow : List Nat)
    (episode : List (Nat × Nat × ℚ)) (st : PassState) : PassState :=
  backwardPass gamma epsilon availNow episode.reverse { st with g := 0, w := 1 }

/-- Q-update asserted by the claim: `C[s][a] += w` followed by

    `Q[s][a] += (w / C[s][a]) · (G − Q[s][a])`, so with `C` already
    incremented the new Q is `q + (w / (c + w)) · (g − q)` (comparison
    definition, written from the claim's formula, not from the code). -/
def specWeightedISUpdate (q c w g : ℚ) : ℚ := q + (w / (c + w)) * (g - q)

end OffPolicyMonteCarloControl

/-- `Transition` record of dqn.rs (lines 8-14). -/
structure Transition where
  state : Nat
  action : Nat
  reward : ℚ
  nextState : Nat
  done : Bool
  deriving DecidableEq

/-- `ReplayMemory` of dqn.rs (lines 17-20): a growable vector plus the

    capacity fixed at construction. -/
structure ReplayMemory where
  transitions : List Transition
  capacity : Nat
  deriving DecidableEq

namespace ReplayMemory

/-- `ReplayMemory::new` (dqn.rs, lines 23-28). -/
def new (capacity : Nat) : ReplayMemory := ⟨[], capacity⟩

/-- `ReplayMemory::push` (dqn.rs, lines 31-36): when `len() >= capacity`,

    `Vec::remove(0)` evicts the oldest transition — and panics (`none`) on
    an empty vector, which is reachable only with capacity 0 — then the new
    transition is appended at the back. -/
def push (m : ReplayMemory) (t : Transition) : Option ReplayMemory :=
  if m.capacity ≤ m.transitions.length then
    match m.transitions with
    | [] => none
    | _ :: rest => some ⟨rest ++ [t], m.capacity⟩
  else some ⟨m.transitions ++ [t], m.capacity⟩

/-- `ReplayMemory::len` (dqn.rs, lines 47-49). -/
def len (m : ReplayMemory) : Nat := m.transitions.length

/-- A whole sequence of pushes, propagating a panic. -/
def pushAll (m : ReplayMemory) (ts : List Transition) : Option ReplayMemory :=
  ts.foldl (fun acc t => acc.bind (fun m => push m t)) (some m)

end ReplayMemory

/-- Value table exhibiting the C10 divergence: in next state 1 the

    unavailable action 1 carries a larger Q-value than the available
    action 0. -/
def qDemo : Nat → Nat → ℚ := fun _ a => if a = 1 then 5 else 0

/-! Helper lemmas about the scanning folds. -/

theorem f32MIN_eq : f32MIN = -(2 ^ 128 - 2 ^ 104) := by norm_num [f32MIN]

theorem bestScan_mem (val : Nat → ℚ) :
    ∀ (l : List Nat) (b : Nat × ℚ), (bestScan val b l).1 = b.1 ∨ (bestScan val b l).1 ∈ l := by
  intro l
  induction l with
  | nil => intro b; exact Or.inl rfl
  | cons a tl ih =>
    intro b
    by_cases h : val a > b.2
    · rcases ih (a, val a) with h1 | h1
      · exact Or.inr (by simp [bestScan, h] at h1 ⊢; simp [h1])
      · exact Or.inr (by simp [bestScan, h] at h1 ⊢; simp [h1])
    · rcases ih b with h1 | h1
      · exact Or.inl (by simpa [bestScan, h] using h1)
      · exact Or.inr (by simp [bestScan, h] at h1 ⊢; simp [h1])

theorem lastMaxScan_mem (val : Nat → ℚ) :
    ∀ (l : List Nat) (a0 : Nat), lastMaxScan val a0 l = a0 ∨ lastMaxScan val a0 l ∈ l := by
  intro l
  induction l with
  | nil => intro a0; exact Or.inl rfl
  | cons a tl ih =>
    intro a0
    by_cases h : val a0 > val a
    · rcases ih a0 with h1 | h1
      · exact Or.inl (by simpa [lastMaxScan, h] using h1)
      · exact Or.inr (by simp [lastMaxScan, h] at h1 ⊢; simp [h1])
    · rcases ih a with h1 | h1
      · exact Or.inr (by simp [lastMaxScan, h] at h1 ⊢; simp [h1])
      · exact Or.inr (by simp [lastMaxScan, h] at h1 ⊢; simp [h1])

theorem piScan_mem (policy : Nat → Nat) (value : Nat → ℚ) (state : Nat) :
    ∀ (l : List Nat) (best : Nat) (maxValue : ℚ),
      PolicyIteration.piScan policy value state l best maxValue = best ∨
      PolicyIteration.piScan policy value state l best maxValue ∈ l := by
  intro l
  induction l with
  | nil => intro best maxValue; exact Or.inl rfl
  | cons a tl ih =>
    intro best maxValue
    by_cases h : policy state = a
    · exact Or.inr (by simp [PolicyIteration.piScan, h])
    · by_cases h2 : value state > maxValue
      · rcases ih a (value state) with h1 | h1
        · exact Or.inr (by simp [PolicyIteration.piScan, h, h2, h1])
        · exact Or.inr (by simp [PolicyIteration.piScan, h, h2]; simp [h1])
      · rcases ih best maxValue with h1 | h1
        · exact Or.inl (by simpa [PolicyIteration.piScan, h, h2] using h1)
        · exact Or.inr (by simp [PolicyIteration.piScan, h, h2]; simp [h1])

theorem le_foldl_max (l : List ℚ) : ∀ m0 : ℚ, m0 ≤ l.foldl max m0 := by
  induction l with
  | nil => intro m0; simp
  | cons a tl ih =>
    intro m0
    calc m0 ≤ max m0 a := le_max_left _ _
    _ ≤ tl.foldl max (max m0 a) := ih _
    _ = (a :: tl).foldl max m0 := rfl

theorem foldl_max_ub (l : List ℚ) : ∀ (m0 x : ℚ), x ∈ l → x ≤ l.foldl max m0 := by
  induction l with
  | nil => intro m0 x hx; simp at hx
  | cons a tl ih =>
    intro m0 x hx
    rcases List.mem_cons.mp hx with h | h
    · subst h
      calc x ≤ max m0 x := le_max_right _ _
      _ ≤ tl.foldl max (max m0 x) := le_foldl_max tl _
    · exact ih _ x h

theorem foldl_max_eq_or (l : List ℚ) :
    ∀ m0 : ℚ, l.foldl max m0 = m0 ∨ l.foldl max m0 ∈ l := by
  induction l with
  | nil => intro m0; exact Or.inl rfl
  | cons a tl ih =>
    intro m0
    rcases ih (max m0 a) with h | h
    · rcases max_choice m0 a with h2 | h2
      · exact Or.inl (by simp only [List.foldl_cons]; rw [h, h2])
      · exact Or.inr (by simp only [List.foldl_cons]; rw [h, h2]; exact List.mem_cons_self a tl)
    · exact Or.inr (List.mem_cons_of_mem a (by simpa using h))

theorem foldl_max_mem (l : List ℚ) (m0 : ℚ) (hne : l ≠ []) (hlb : ∀ x ∈ l, m0 ≤ x) :
    l.foldl max m0 ∈ l := by
  rcases foldl_max_eq_or l m0 with h | h
  · rcases List.exists_mem_of_ne_nil l hne with ⟨x, hx⟩
    have h1 : x ≤ l.foldl max m0 := foldl_max_ub l m0 x hx
    have h2 : l.foldl max m0 ≤ x := by rw [h]; exact hlb x hx
    have h3 : l.foldl max m0 = x := le_antisymm h2 h1
    rw [h3]; exact hx
  · exact h

/-- Claim C1: for every state and every non-empty `available_actions` list,

    `get_best_action` of each algorithm (Q-Learning, SARSA, Dyna-Q, DQN,
    Monte-Carlo control on- and off-policy, Policy Iteration, Value
    Iteration, REINFORCE) returns an action that is an element of that
    `available_actions` list. -/
theorem claim1_get_best_action_in_available :
    (∀ (q : Nat → Nat → ℚ) (s : Nat) (aa : List Nat), aa ≠ [] →
      ∃ b, QLearning.getBestAction q s aa = some b ∧ b ∈ aa)
    ∧ (∀ (q : Nat → Nat → ℚ) (s : Nat) (aa : List Nat), aa ≠ [] →
      ∃ b, Sarsa.getBestAction q s aa = some b ∧ b ∈ aa)
    ∧ (∀ (q : Nat → Nat → ℚ) (s : Nat) (aa : List Nat), aa ≠ [] →
      ∃ b, DynaQ.getBestAction q s aa = some b ∧ b ∈ aa)
    ∧ (∀ (w : Nat → Nat → ℚ) (s : Nat) (aa : List Nat), aa ≠ [] →
      ∃ b, DQN.getBestAction w s aa = some b ∧ b ∈ aa)
    ∧ (∀ (q : Nat → Nat → ℚ) (s : Nat) (aa : List Nat), aa ≠ [] →
      ∃ b, MonteCarloControl.getBestAction q s aa = some b ∧ b ∈ aa)
    ∧ (∀ (q : Nat → Nat → ℚ) (s : Nat) (aa : List Nat), aa ≠ [] →
      OffPolicyMonteCarloControl.getBestAction q s aa ∈ aa)
    ∧ (∀ (pol : Nat → Nat) (v : Nat → ℚ) (s : Nat) (aa : List Nat), aa ≠ [] →
      PolicyIteration.getBestAction pol v s aa ∈ aa)
    ∧ (∀ (q : Nat → Nat → ℚ) (n s : Nat) (aa : List Nat), aa ≠ [] →
      ∃ b, ValueIteration.getBestAction q n s aa = some b ∧ b ∈ aa)
    ∧ (∀ (probs : Nat → ℚ) (aa : List Nat), aa ≠ [] →
      ∃ b, Reinforce.getBestAction probs aa = some b ∧ b ∈ aa) := by
  have scan : ∀ (val : Nat → ℚ) (a0 : Nat) (rest : List Nat),
      (bestScan val (a0, val a0) rest).1 ∈ a0 :: rest := by
    intro val a0 rest
    rcases bestScan_mem val rest (a0, val a0) with h | h
    · rw [h]; exact List.mem_cons_self _ _
    · exact List.mem_cons_of_mem _ h
  have lscan : ∀ (val : Nat → ℚ) (a0 : Nat) (rest : List Nat),
      lastMaxScan val a0 rest ∈ a0 :: rest := by
    intro val a0 rest
    rcases lastMaxScan_mem val rest a0 with h | h
    · rw [h]; exact List.mem_cons_self _ _
    · exact List.mem_cons_of_mem _ h
  refine ⟨?_, ?_, ?_, ?_, ?_, ?_, ?_, ?_, ?_⟩
  · rintro q s (_ | ⟨a0, rest⟩) h
    · exact absurd rfl h
    · exact ⟨_, rfl, scan (q s) a0 rest⟩
  · rintro q s (_ | ⟨a0, rest⟩) h
    · exact absurd rfl h
    · exact ⟨_, rfl, scan (q s) a0 rest⟩
  · rintro q s (_ | ⟨a0, rest⟩) h
    · exact absurd rfl h
    · exact ⟨_, rfl, scan (q s) a0 rest⟩
  · rintro w s (_ | ⟨a0, rest⟩) h
    · exact absurd rfl h
    · exact ⟨_, rfl, scan (w s) a0 rest⟩
  · rintro q s (_ | ⟨a0, rest⟩) h
    · exact absurd rfl h
    · exact ⟨_, rfl, scan (q s) a0 rest⟩
  · rintro q s (_ | ⟨a0, rest⟩) h
    · exact absurd rfl h
    · exact lscan (q s) a0 rest
  · rintro pol v s (_ | ⟨a0, rest⟩) h
    · exact absurd rfl h
    · show PolicyIteration.piScan pol v s (a0 :: rest) a0 f32MIN ∈ a0 :: rest
      rcases piScan_mem pol v s (a0 :: rest) a0 f32MIN with h1 | h1
      · rw [h1]; exact List.mem_cons_self _ _
      · exact h1
  · rintro q n s (_ | ⟨a0, rest⟩) h
    · exact absurd rfl h
    · exact ⟨_, rfl, lscan (ValueIteration.lookupQ q n s) a0 rest⟩
  · rintro probs (_ | ⟨a0, rest⟩) h
    · exact absurd rfl h
    · refine ⟨_, rfl, ?_⟩
      rcases bestScan_mem probs (a0 :: rest) (a0, probs a0) with h1 | h1
      · rw [h1]; exact List.mem_cons_self _ _
      · exact h1

/-- Witness for C1: every `get_best_action` applied to the zero table,

    state 0 and the non-empty list [1, 2]. -/
theorem claim1_get_best_action_in_available_witness :
    (∃ b, QLearning.getBestAction (fun _ _ => 0) 0 [1, 2] = some b ∧ b ∈ [1, 2])
    ∧ (∃ b, Sarsa.getBestAction (fun _ _ => 0) 0 [1, 2] = some b ∧ b ∈ [1, 2])
    ∧ (∃ b, DynaQ.getBestAction (fun _ _ => 0) 0 [1, 2] = some b ∧ b ∈ [1, 2])
    ∧ (∃ b, DQN.getBestAction (fun _ _ => 0) 0 [1, 2] = some b ∧ b ∈ [1, 2])
    ∧ (∃ b, MonteCarloControl.getBestAction (fun _ _ => 0) 0 [1, 2] = some b ∧ b ∈ [1, 2])
    ∧ OffPolicyMonteCarloControl.getBestAction (fun _ _ => 0) 0 [1, 2] ∈ [1, 2]
    ∧ PolicyIteration.getBestAction (fun _ => 0) (fun _ => 0) 0 [1, 2] ∈ [1, 2]
    ∧ (∃ b, ValueIteration.getBestAction (fun _ _ => 0) 1 0 [1, 2] = some b ∧ b ∈ [1, 2])
    ∧ (∃ b, Reinforce.getBestAction (fun _ => 0) [1, 2] = some b ∧ b ∈ [1, 2]) := by
  obtain ⟨h1, h2, h3, h4, h5, h6, h7, h8, h9⟩ := claim1_get_best_action_in_available
  exact ⟨h1 (fun _ _ => 0) 0 [1, 2] (by decide), h2 (fun _ _ => 0) 0 [1, 2] (by decide),
    h3 (fun _ _ => 0) 0 [1, 2] (by decide), h4 (fun _ _ => 0) 0 [1, 2] (by decide),
    h5 (fun _ _ => 0) 0 [1, 2] (by decide), h6 (fun _ _ => 0) 0 [1, 2] (by decide),
    h7 (fun _ => 0) (fun _ => 0) 0 [1, 2] (by decide),
    h8 (fun _ _ => 0) 1 0 [1, 2] (by decide), h9 (fun _ => 0) [1, 2] (by decide)⟩

/-- Claim C2: during Q-Learning training, every loop iteration that steps

    from env state `es` with chosen action `a` updates exactly the Q-table
    entry of `(state_id(es), a)` to
    `Q[s][a] + α·(r + γ·max_{a' ∈ available(s')} Q[s'][a'] − Q[s][a])`,
    where `r` is the difference of `env.score()` after and before the step
    and the bootstrap is 0 when the next state is terminal.  The maximum
    characterisation holds whenever the next state's mapped Q-values are at
    least `f32::MIN`, which is true of every finite `f32` table. -/
theorem claim2_qlearning_update (alpha gamma : ℚ) (env : EnvModel) (q : Nat → Nat → ℚ)
    (es a : Nat) :
    (QLearning.trainStep alpha gamma env q es a).1 (env.stateIdF es) a
      = q (env.stateIdF es) a
        + alpha * ((env.scoreF (env.stepF es a) - env.scoreF es)
            + gamma * QLearning.bootstrapOf env q es a - q (env.stateIdF es) a)
    ∧ (env.gameOverF (env.stepF es a) = true → QLearning.bootstrapOf env q es a = 0)
    ∧ (env.gameOverF (env.stepF es a) = false →
        env.availF (env.stepF es a) ≠ [] →
        (∀ x ∈ (env.availF (env.stepF es a)).map (q (env.stateIdF (env.stepF es a))),
            f32MIN ≤ x) →
        QLearning.bootstrapOf env q es a
            ∈ (env.availF (env.stepF es a)).map (q (env.stateIdF (env.stepF es a)))
          ∧ ∀ x ∈ (env.availF (env.stepF es a)).map (q (env.stateIdF (env.stepF es a))),
              x ≤ QLearning.bootstrapOf env q es a)
    ∧ (∀ s0 a0, ¬(s0 = env.stateIdF es ∧ a0 = a) →
        (QLearning.trainStep alpha gamma env q es a).1 s0 a0 = q s0 a0) := by
  refine ⟨?_, ?_, ?_, ?_⟩
  · simp [QLearning.trainStep, QLearning.bootstrapOf]
  · intro h
    simp [QLearning.bootstrapOf, h]
  · intro h hne hfin
    have hmapne :
        (env.availF (env.stepF es a)).map (q (env.stateIdF (env.stepF es a))) ≠ [] := by
      simpa using hne
    constructor
    · simpa [QLearning.bootstrapOf, h] using foldl_max_mem _ f32MIN hmapne hfin
    · intro x hx
      simpa [QLearning.bootstrapOf, h] using foldl_max_ub _ f32MIN x hx
  · intro s0 a0 h
    simp [QLearning.trainStep, h]

/-- Witness for C2: one step of Q-Learning on LineWorld from the initial

    state 2 with action 1 (move right), zero table, α = 1/10, γ = 99/100. -/
theorem claim2_qlearning_update_witness :
    lineEnv.gameOverF (lineEnv.stepF 2 1) = false
    ∧ lineEnv.availF (lineEnv.stepF 2 1) ≠ []
    ∧ (∀ x ∈ (lineEnv.availF (lineEnv.stepF 2 1)).map
          ((fun _ _ => (0 : ℚ)) (lineEnv.stateIdF (lineEnv.stepF 2 1))), f32MIN ≤ x)
    ∧ (QLearning.bootstrapOf lineEnv (fun _ _ => 0) 2 1
          ∈ (lineEnv.availF (lineEnv.stepF 2 1)).map
              ((fun _ _ => (0 : ℚ)) (lineEnv.stateIdF (lineEnv.stepF 2 1)))
        ∧ ∀ x ∈ (lineEnv.availF (lineEnv.stepF 2 1)).map
              ((fun _ _ => (0 : ℚ)) (lineEnv.stateIdF (lineEnv.stepF 2 1))),
            x ≤ QLearning.bootstrapOf lineEnv (fun _ _ => 0) 2 1) := by
  refine ⟨by decide, by decide, by decide, ?_⟩
  exact (claim2_qlearning_update (1/10) (99/100) lineEnv (fun _ _ => 0) 2 1).2.2.1
    (by decide) (by decide) (by decide)

theorem dyna_real_update_eq_qlearning (alpha gamma : ℚ) (q : Nat → Nat → ℚ) (e : Exp)
    (h : e.term = e.availNext.isEmpty) :
    DynaQ.updateQValue alpha gamma q e.s e.a e.r e.sNext e.availNext
      = QLearning.expStep alpha gamma q e := by
  unfold DynaQ.updateQValue QLearning.expStep
  rw [h]

/-- Claim C5: Dyna-Q with `planning_steps = 0` produces exactly the same

    Q-table evolution as plain Q-Learning when both are driven through the
    same sequence of experiences, for any environment consistent with the
    `available_actions() empty iff terminal` contract (Q-Learning tests the
    terminal flag, Dyna-Q tests emptiness of the next action list). -/
theorem claim5_dynaq_zero_planning_eq_qlearning (alpha gamma : ℚ) (numActions : Nat)
    (chooser : DynaQ.Model → Option ((Nat × Nat) × ℚ × Nat)) (exps : List Exp)
    (q0 : Nat → Nat → ℚ) (m0 : DynaQ.Model)
    (h : ∀ e ∈ exps, e.term = e.availNext.isEmpty) :
    (exps.foldl (DynaQ.trainExpStep alpha gamma numActions 0 chooser) (q0, m0)).1
      = exps.foldl (QLearning.expStep alpha gamma) q0 := by
  induction exps generalizing q0 m0 with
  | nil => rfl
  | cons e tl ih =>
    have he := h e (List.mem_cons_self e tl)
    have htl : ∀ e ∈ tl, e.term = e.availNext.isEmpty :=
      fun x hx => h x (List.mem_cons_of_mem e hx)
    simp only [List.foldl_cons]
    have hstep : DynaQ.trainExpStep alpha gamma numActions 0 chooser (q0, m0) e
        = (QLearning.expStep alpha gamma q0 e, DynaQ.modelInsert m0 (e.s, e.a) (e.r, e.sNext)) := by
      unfold DynaQ.trainExpStep
      simp [List.range_zero, dyna_real_update_eq_qlearning alpha gamma q0 e he]
    rw [hstep]
    exact ih _ _ htl

/-- Witness for C5: two experiences taken from a LineWorld episode

    (2 →right→ 3, then 3 →right→ terminal 4), satisfying the
    terminal-iff-empty side condition. -/
theorem claim5_dynaq_zero_planning_eq_qlearning_witness :
    (∀ e ∈ [Exp.mk 2 1 0 3 [0, 1] false, Exp.mk 3 1 1 4 [] true],
        e.term = e.availNext.isEmpty)
    ∧ ([Exp.mk 2 1 0 3 [0, 1] false, Exp.mk 3 1 1 4 [] true].foldl
          (DynaQ.trainExpStep (1/10) (99/100) 2 0 (fun _ => none)) (fun _ _ => 0, [])).1
      = [Exp.mk 2 1 0 3 [0, 1] false, Exp.mk 3 1 1 4 [] true].foldl
          (QLearning.expStep (1/10) (99/100)) (fun _ _ => 0) :=
  ⟨by decide,
   claim5_dynaq_zero_planning_eq_qlearning (1/10) (99/100) 2 (fun _ => none)
     [Exp.mk 2 1 0 3 [0, 1] false, Exp.mk 3 1 1 4 [] true] (fun _ _ => 0) [] (by decide)⟩

/-- Claim C10: every Dyna-Q planning update bootstraps with the maximum of

    `Q[next_state][a]` over ALL action indices `0..num_actions`
    (`planning_step` builds `next_actions = (0..q_table[next_state].len())`),
    while the real-experience update of the same training loop maximizes
    only over the environment's reported available actions; on `qDemo` with
    `available(1) = [0]` the two updates genuinely differ (5 versus 0). -/
theorem claim10_planning_bootstrap_full_range :
    (∀ (alpha gamma : ℚ) (numActions : Nat)
        (chooser : DynaQ.Model → Option ((Nat × Nat) × ℚ × Nat)) (q : Nat → Nat → ℚ)
        (m : DynaQ.Model) (s a : Nat) (r : ℚ) (sNext : Nat),
        chooser m = some ((s, a), r, sNext) →
        DynaQ.planningStep alpha gamma numActions chooser q m
          = DynaQ.updateQValue alpha gamma q s a r sNext (List.range numActions))
    ∧ (∀ (alpha gamma : ℚ) (numActions : Nat)
        (chooser : DynaQ.Model → Option ((Nat × Nat) × ℚ × Nat))
        (st : (Nat → Nat → ℚ) × DynaQ.Model) (e : Exp),
        (DynaQ.trainExpStep alpha gamma numActions 1 chooser st e).1
          = DynaQ.planningStep alpha gamma numActions chooser
              (DynaQ.updateQValue alpha gamma st.1 e.s e.a e.r e.sNext e.availNext)
              (DynaQ.modelInsert st.2 (e.s, e.a) (e.r, e.sNext)))
    ∧ DynaQ.updateQValue 1 1 qDemo 0 0 0 1 (List.range 2) 0 0 = 5
    ∧ DynaQ.updateQValue 1 1 qDemo 0 0 0 1 [0] 0 0 = 0 := by
  have hrange : List.range 2 = [0, 1] := rfl
  have h1 : DynaQ.updateQValue 1 1 qDemo 0 0 0 1 (List.range 2) 0 0 = 5 := by
    rw [hrange]
    norm_num [DynaQ.updateQValue, qDemo, max_def, f32MIN]
  have h2 : DynaQ.updateQValue 1 1 qDemo 0 0 0 1 [0] 0 0 = 0 := by
    norm_num [DynaQ.updateQValue, qDemo, max_def, f32MIN]
  refine ⟨?_, ?_, h1, h2⟩
  · intro alpha gamma numActions chooser q m s a r sNext h
    unfold DynaQ.planningStep
    rw [h]
  · intro alpha gamma numActions chooser st e
    rfl

/-- Witness for C10: a chooser that returns the cached transition

    `(0,0) → (0, 1)`, so the planning update is exactly the full-range
    `update_q_value`. -/
theorem claim10_planning_bootstrap_full_range_witness :
    ((fun _ : DynaQ.Model => some ((0, 0), (0 : ℚ), 1)) [] = some ((0, 0), (0 : ℚ), 1))
    ∧ DynaQ.planningStep 1 1 2 (fun _ => some ((0, 0), (0 : ℚ), 1)) qDemo []
        = DynaQ.updateQValue 1 1 qDemo 0 0 0 1 (List.range 2) :=
  ⟨rfl, claim10_planning_bootstrap_full_range.1 1 1 2 (fun _ => some ((0, 0), (0 : ℚ), 1))
      qDemo [] 0 0 0 1 rfl⟩

theorem viLoop_count_le (mdl : MDPModel) (gamma theta : ℚ) :
    ∀ (fuel : Nat) (st : ValueIteration.VIState),
      (ValueIteration.viLoop mdl gamma theta fuel st).2 ≤ fuel := by
  intro fuel
  induction fuel with
  | zero => intro st; simp [ValueIteration.viLoop]
  | succ n ih =>
    intro st
    unfold ValueIteration.viLoop
    by_cases h : (ValueIteration.viSweep mdl gamma st).2 < theta ∨ n = 0
    · simp [h]
    · simp only [h, if_false]
      exact Nat.succ_le_succ (ih _)

theorem divergent_sweep_eval (pol : Nat → Nat) (v : Nat → ℚ) :
    (PolicyIteration.piEvalSweep PolicyIteration.divergentModel 1 pol v).1 0 = v 1
    ∧ (PolicyIteration.piEvalSweep PolicyIteration.divergentModel 1 pol v).1 1 = 1 + v 2
    ∧ (PolicyIteration.piEvalSweep PolicyIteration.divergentModel 1 pol v).1 2 = v 1 - 1
    ∧ (PolicyIteration.piEvalSweep PolicyIteration.divergentModel 1 pol v).2
      = max (max (max 0 |v 0 - v 1|) |v 1 - (1 + v 2)|) |v 2 - (v 1 - 1)| := by
  have h3 : List.range 3 = [0, 1, 2] := rfl
  refine ⟨?_, ?_, ?_, ?_⟩ <;>
    · simp only [PolicyIteration.piEvalSweep, bellmanQ, PolicyIteration.divergentModel, h3,
        List.foldl_cons, List.foldl_nil]
      norm_num
      try ring_nf

theorem divergent_eval_invariant_none (pol : Nat → Nat) :
    ∀ (fuel : Nat) (v : Nat → ℚ),
      ((v 0 = 0 ∧ v 1 = 1 ∧ v 2 = -1) ∨ (v 0 = 1 ∧ v 1 = 0 ∧ v 2 = 0)) →
      PolicyIteration.piEvalFuel PolicyIteration.divergentModel 1 (1/1000000) pol fuel v
        = none := by
  intro fuel
  induction fuel with
  | zero =>
    intro v hv
    obtain ⟨h0, h1, h2, hd⟩ := divergent_sweep_eval pol v
    unfold PolicyIteration.piEvalFuel
    rw [if_neg]
    rw [hd]
    rcases hv with ⟨e0, e1, e2⟩ | ⟨e0, e1, e2⟩ <;> rw [e0, e1, e2] <;>
      norm_num [max_def, abs]
  | succ n ih =>
    intro v hv
    obtain ⟨h0, h1, h2, hd⟩ := divergent_sweep_eval pol v
    unfold PolicyIteration.piEvalFuel
    rw [if_neg]
    · apply ih
      rcases hv with ⟨e0, e1, e2⟩ | ⟨e0, e1, e2⟩
      · exact Or.inr ⟨by rw [h0, e1], by rw [h1, e2]; norm_num, by rw [h2, e1]; norm_num⟩
      · exact Or.inl ⟨by rw [h0, e1], by rw [h1, e2]; norm_num, by rw [h2, e1]; norm_num⟩
    · rw [hd]
      rcases hv with ⟨e0, e1, e2⟩ | ⟨e0, e1, e2⟩ <;> rw [e0, e1, e2] <;>
        norm_num [max_def, abs]

theorem divergent_eval_none (pol : Nat → Nat) :
    ∀ fuel : Nat,
      PolicyIteration.piEvalFuel PolicyIteration.divergentModel 1 (1/1000000) pol fuel
        (fun _ => 0) = none := by
  intro fuel
  obtain ⟨h0, h1, h2, hd⟩ := divergent_sweep_eval pol (fun _ => 0)
  cases fuel with
  | zero =>
    unfold PolicyIteration.piEvalFuel
    rw [if_neg]
    rw [hd]
    norm_num [max_def, abs]
  | succ n =>
    unfold PolicyIteration.piEvalFuel
    rw [if_neg]
    · exact divergent_eval_invariant_none pol n _
        (Or.inl ⟨by rw [h0], by rw [h1]; norm_num, by rw [h2]; norm_num⟩)
    · rw [hd]
      norm_num [max_def, abs]

/-- Claim C6, refuted on the code: on the deterministic three-state reward

    cycle `divergentModel` (rewards 0, 1, -1; γ = 1; θ = 10⁻⁶), starting
    from the program's zero-initialised value vector, every in-place
    evaluation sweep has delta exactly 1 and the value vector oscillates
    with period 2 between `(0, 1, -1)` and `(1, 0, 0)`.  All quantities are
    integers of magnitude at most 2, so every f32 operation of the source
    is exact and this run is bit-exact to the program:
    `PolicyIteration::policy_iteration`, which has no iteration cap, is
    still running after 1000 evaluation sweeps (Value Iteration's cap) —
    and, by `claim6_amended`, after every bound. -/
theorem claim6_counterexample :
    PolicyIteration.policyIterationFuel PolicyIteration.divergentModel 1 (1/1000000) 1000 5
      (fun _ => 0) (fun _ => 0) = none := by
  unfold PolicyIteration.policyIterationFuel
  rw [divergent_eval_none]

/-- Claim C6 as amended: Value Iteration's planning loop is bounded by its

    `max_iterations = 1000` cap (it performs at most 1000 sweeps and then
    returns the current estimate, with no error), but Policy Iteration's
    evaluation loop has no cap and need not terminate: on `divergentModel`,
    whose evaluation run is exactly representable in f32 (period-2
    oscillation of small-integer value vectors with delta 1), the loop
    started from the program's zero-initialised value vector is still
    running after every fuel bound. -/
theorem claim6_amended :
    (∀ (mdl : MDPModel) (gamma theta : ℚ) (st : ValueIteration.VIState),
        (ValueIteration.valueIteration mdl gamma theta st).2 ≤ 1000)
    ∧ (∀ (pol : Nat → Nat) (fuel : Nat),
        PolicyIteration.piEvalFuel PolicyIteration.divergentModel 1 (1/1000000) pol fuel
          (fun _ => 0) = none) :=
  ⟨fun mdl gamma theta st => viLoop_count_le mdl gamma theta 1000 st,
   fun pol fuel => divergent_eval_none pol fuel⟩

theorem push_capacity_eq (m : ReplayMemory) (t : Transition) (m1 : ReplayMemory)
    (h : ReplayMemory.push m t = some m1) : m1.capacity = m.capacity := by
  unfold ReplayMemory.push at h
  by_cases hc : m.capacity ≤ m.transitions.length
  · rw [if_pos hc] at h
    cases hm : m.transitions with
    | nil => rw [hm] at h; exact absurd h (by simp)
    | cons hd tl => rw [hm] at h; cases h; rfl
  · rw [if_neg hc] at h
    cases h; rfl

theorem push_len_le (m : ReplayMemory) (t : Transition) (m1 : ReplayMemory)
    (hinv : m.transitions.length ≤ m.capacity) (h : ReplayMemory.push m t = some m1) :
    m1.transitions.length ≤ m.capacity := by
  unfold ReplayMemory.push at h
  by_cases hc : m.capacity ≤ m.transitions.length
  · rw [if_pos hc] at h
    cases hm : m.transitions with
    | nil => rw [hm] at h; exact absurd h (by simp)
    | cons hd tl =>
      rw [hm] at h
      cases h
      have : tl.length + 1 = m.transitions.length := by rw [hm]; simp
      simp only [List.length_append, List.length_cons, List.length_nil]
      omega
  · rw [if_neg hc] at h
    cases h
    simp only [List.length_append, List.length_cons, List.length_nil]
    omega

theorem pushAll_none (ts : List Transition) :
    ts.foldl (fun acc t => acc.bind (fun m => ReplayMemory.push m t)) none = none := by
  induction ts with
  | nil => rfl
  | cons t tl ih => simpa using ih

theorem pushAll_inv :
    ∀ (ts : List Transition) (m0 : ReplayMemory),
      m0.transitions.length ≤ m0.capacity →
      ∀ m : ReplayMemory, ReplayMemory.pushAll m0 ts = some m →
        m.capacity = m0.capacity ∧ m.transitions.length ≤ m0.capacity := by
  intro ts
  induction ts with
  | nil =>
    intro m0 hinv m h
    cases h
    exact ⟨rfl, hinv⟩
  | cons t tl ih =>
    intro m0 hinv m h
    unfold ReplayMemory.pushAll at h
    rw [List.foldl_cons] at h
    simp only [Option.some_bind] at h
    cases hp : ReplayMemory.push m0 t with
    | none =>
      rw [hp] at h
      rw [pushAll_none tl] at h
      exact absurd h (by simp)
    | some m1 =>
      rw [hp] at h
      have hcap := push_capacity_eq m0 t m1 hp
      have hlen := push_len_le m0 t m1 hinv hp
      have := ih m1 (by rw [hcap]; exact hlen) m h
      rw [hcap] at this
      exact this

/-- Claim C7: any sequence of pushes into a replay memory of construction

    capacity `c` keeps `len()` at most `c`, and a push performed while
    `len()` equals the capacity removes exactly the oldest stored
    transition (the list head, since pushes append at the back) before
    appending the new one. -/
theorem claim7_replay_memory_fifo :
    (∀ (c : Nat) (ts : List Transition) (m : ReplayMemory),
        ReplayMemory.pushAll (ReplayMemory.new c) ts = some m → ReplayMemory.len m ≤ c)
    ∧ (∀ (m : ReplayMemory) (t : Transition), m.transitions ≠ [] →
        ReplayMemory.len m = m.capacity →
        ReplayMemory.push m t = some ⟨m.transitions.tail ++ [t], m.capacity⟩) := by
  constructor
  · intro c ts m h
    exact (pushAll_inv ts (ReplayMemory.new c) (by simp [ReplayMemory.new]) m h).2
  · intro m t hne hlen
    unfold ReplayMemory.push
    rw [if_pos (by rw [← hlen]; rfl)]
    cases hm : m.transitions with
    | nil => exact absurd hm hne
    | cons hd tl => simp

/-- Witness for C7: pushing three transitions into a capacity-2 memory;

    the oldest is evicted and `len` stays 2. -/
theorem claim7_replay_memory_fifo_witness :
    (ReplayMemory.pushAll (ReplayMemory.new 2)
        [Transition.mk 0 0 0 1 false, Transition.mk 1 0 0 2 false]
      = some ⟨[Transition.mk 0 0 0 1 false, Transition.mk 1 0 0 2 false], 2⟩)
    ∧ ReplayMemory.len ⟨[Transition.mk 0 0 0 1 false, Transition.mk 1 0 0 2 false], 2⟩ = 2
    ∧ ([Transition.mk 0 0 0 1 false, Transition.mk 1 0 0 2 false] ≠
        ([] : List Transition))
    ∧ (∀ m : ReplayMemory,
        ReplayMemory.pushAll (ReplayMemory.new 2)
            [Transition.mk 0 0 0 1 false, Transition.mk 1 0 0 2 false] = some m →
          ReplayMemory.len m ≤ 2)
    ∧ ReplayMemory.push ⟨[Transition.mk 0 0 0 1 false, Transition.mk 1 0 0 2 false], 2⟩
        (Transition.mk 2 0 0 3 true)
      = some ⟨[Transition.mk 1 0 0 2 false, Transition.mk 2 0 0 3 true], 2⟩ := by
  refine ⟨by decide, by decide, by decide, ?_, ?_⟩
  · intro m h
    exact claim7_replay_memory_fifo.1 2
      [Transition.mk 0 0 0 1 false, Transition.mk 1 0 0 2 false] m h
  · exact claim7_replay_memory_fifo.2
      ⟨[Transition.mk 0 0 0 1 false, Transition.mk 1 0 0 2 false], 2⟩
      (Transition.mk 2 0 0 3 true) (by decide) (by decide)

/-- Claim C3 evaluated at the failing input: the reverse traversal of

    `MonteCarloControl::train` marks a pair visited at its FIRST REVERSE
    encounter, i.e. its LAST forward visit, so on the single episode
    `[(0,0,1), (0,0,2)]` with γ = 1 the code records the return 2 observed
    at t = 1 (the last forward visit of (0,0)), whereas the claimed
    first-visit (forward order) return is `G_0 = 1 + 2 = 3`.  The code's
    own comment says "First-visit check", so the code, not the claim, is
    wrong. -/
theorem claim3_records_last_forward_visit :
    (MonteCarloControl.train 1 0 1 [[(0, 0, 1), (0, 0, 2)]]
        (MonteCarloControl.initState 1)).qValues 0 0 = 2
    ∧ MonteCarloControl.specFirstVisitQ 1 [[(0, 0, 1), (0, 0, 2)]] 0 0 = 3
    ∧ (2 : ℚ) ≠ 3 :=
  ⟨by norm_num [MonteCarloControl.train, MonteCarloControl.processEpisode,
      MonteCarloControl.processStep, MonteCarloControl.initState],
   by norm_num [MonteCarloControl.specFirstVisitQ, MonteCarloControl.firstVisitReturn,
      MonteCarloControl.returnsTo, List.find?, List.filterMap_cons, List.zip, List.zipWith,
      Option.map],
   by norm_num⟩

/-- Claim C4, refuted on the code: the backward pass of

    `OffPolicyMonteCarloControl::train` uses the adaptive learning rate
    `alpha = 1 / (C[s][a] + 1)` (off_montecarlo_control.rs, line 158), not
    `w / C[s][a]`.  On the one-step episode `[(0,0,1)]` from zero tables
    with `w = 1` the code yields `Q[0][0] = 1/2`, while the claim's
    formula `Q += (w / C)·(G − Q)` with `C = 0 + 1` yields 1. -/
theorem claim4_counterexample :
    (OffPolicyMonteCarloControl.trainEpisodePass 1 (1/2) [0] [(0, 0, 1)]
        ⟨fun _ _ => 0, fun _ _ => 0, fun _ => 0, 0, 1⟩).qValues 0 0 = 1/2
    ∧ OffPolicyMonteCarloControl.specWeightedISUpdate 0 0 1 1 = 1
    ∧ (1/2 : ℚ) ≠ 1 :=
  ⟨by norm_num [OffPolicyMonteCarloControl.trainEpisodePass,
      OffPolicyMonteCarloControl.backwardPass, OffPolicyMonteCarloControl.passStep,
      OffPolicyMonteCarloControl.cNew, OffPolicyMonteCarloControl.qNew,
      OffPolicyMonteCarloControl.polNew,
      OffPolicyMonteCarloControl.behaviorProbability, OffPolicyMonteCarloControl.getBestAction,
      lastMaxScan],
   by norm_num [OffPolicyMonteCarloControl.specWeightedISUpdate],
   by norm_num⟩

/-- Claim C4 as amended: each processed step of the backward pass

    accumulates `C[s][a] += w` and then updates
    `Q[s][a] += (w / (C[s][a] + 1)) · (G − Q[s][a])` with `C[s][a]` the
    already-incremented cumulative weight; `w` is divided by the behavior
    probability of the step's action (against the refreshed greedy policy
    and the environment's current available actions) whenever the pass
    continues and that action list is non-empty. -/
theorem claim4_amended (gamma epsilon : ℚ) (availNow : List Nat)
    (st : OffPolicyMonteCarloControl.PassState) (s a : Nat) (r : ℚ) :
    (OffPolicyMonteCarloControl.passStep gamma epsilon availNow st s a r).1.cValues s a
        = st.cValues s a + st.w
    ∧ (OffPolicyMonteCarloControl.passStep gamma epsilon availNow st s a r).1.qValues s a
        = st.qValues s a
          + (st.w / (st.cValues s a + st.w + 1)) * ((gamma * st.g + r) - st.qValues s a)
    ∧ ((OffPolicyMonteCarloControl.passStep gamma epsilon availNow st s a r).2 = true →
        availNow ≠ [] →
        (OffPolicyMonteCarloControl.passStep gamma epsilon availNow st s a r).1.w
          = st.w / OffPolicyMonteCarloControl.behaviorProbability
              (OffPolicyMonteCarloControl.passStep gamma epsilon availNow st s a r).1.qValues
              epsilon a s availNow) := by
  refine ⟨?_, ?_, ?_⟩
  · unfold OffPolicyMonteCarloControl.passStep
    rw [apply_ite Prod.fst, apply_ite OffPolicyMonteCarloControl.PassState.cValues, ite_self]
    simp [OffPolicyMonteCarloControl.cNew]
  · unfold OffPolicyMonteCarloControl.passStep
    rw [apply_ite Prod.fst, apply_ite OffPolicyMonteCarloControl.PassState.qValues, ite_self]
    simp only [OffPolicyMonteCarloControl.qNew, OffPolicyMonteCarloControl.cNew,
      eq_self_iff_true, and_self, ite_true]
    ring
  · intro hflag hne
    by_cases hbr : a ≠ OffPolicyMonteCarloControl.polNew gamma availNow st s a r s
    · unfold OffPolicyMonteCarloControl.passStep at hflag
      rw [if_pos hbr] at hflag
      simp at hflag
    · unfold OffPolicyMonteCarloControl.passStep
      rw [if_neg hbr, if_neg hne]

/-- Witness for C4 (amended): the same one-step episode situation;

    the pass continues and `w` is divided by the behavior probability. -/
theorem claim4_amended_witness :
    ((OffPolicyMonteCarloControl.passStep 1 (1/2) [0]
        ⟨fun _ _ => 0, fun _ _ => 0, fun _ => 0, 0, 1⟩ 0 0 1).2 = true)
    ∧ (([0] : List Nat) ≠ [])
    ∧ (OffPolicyMonteCarloControl.passStep 1 (1/2) [0]
        ⟨fun _ _ => 0, fun _ _ => 0, fun _ => 0, 0, 1⟩ 0 0 1).1.w
      = 1 / OffPolicyMonteCarloControl.behaviorProbability
          (OffPolicyMonteCarloControl.passStep 1 (1/2) [0]
            ⟨fun _ _ => 0, fun _ _ => 0, fun _ => 0, 0, 1⟩ 0 0 1).1.qValues
          (1/2) 0 0 [0] := by
  refine ⟨by decide, by decide, ?_⟩
  exact (claim4_amended 1 (1/2) [0] ⟨fun _ _ => 0, fun _ _ => 0, fun _ => 0, 0, 1⟩
    0 0 1).2.2 (by decide) (by decide)

/-- Claim C8, refuted on the code: LineWorld's terminal state 0 (reachable

    from the initial state 2 by stepping left twice) reports
    `is_game_over() = true` yet `available_actions() = [1]`, a non-empty
    list. -/
theorem claim8_counterexample :
    LineWorld.isGameOver (LineWorld.step (LineWorld.step LineWorld.init 0) 0) = true
    ∧ LineWorld.availableActions (LineWorld.step (LineWorld.step LineWorld.init 0) 0)
      = [1] :=
  ⟨by decide, by decide⟩

/-- Claim C8 as amended: GridWorld (at its construction size 4) and RPS

    satisfy `available_actions() empty iff is_game_over()`, but LineWorld
    violates the contract: its `available_actions()` is never empty, and in
    its terminal states 0 and 4 it returns [1] and [0] respectively. -/
theorem claim8_amended :
    (∀ g : GridWorld, g.size = 4 →
        (GridWorld.availableActions g = [] ↔ GridWorld.isGameOver g = true))
    ∧ (∀ e : RPS, RPS.availableActions e = [] ↔ RPS.isGameOver e = true)
    ∧ (∀ s : Nat, LineWorld.availableActions s ≠ [])
    ∧ LineWorld.isGameOver 0 = true ∧ LineWorld.availableActions 0 = [1]
    ∧ LineWorld.isGameOver 4 = true ∧ LineWorld.availableActions 4 = [0] := by
  refine ⟨?_, ?_, ?_, by decide, by decide, by decide, by decide⟩
  · intro g hsize
    unfold GridWorld.availableActions
    by_cases hgo : GridWorld.isGameOver g = true
    · simp [hgo]
    · rcases Nat.eq_zero_or_pos g.posY with hy | hy
      · simp [hy, hsize, hgo, List.append_eq_nil]
      · simp [hy, hgo, List.append_eq_nil]
  · intro e
    unfold RPS.availableActions
    by_cases h : RPS.isGameOver e = true
    · simp [h]
    · simp [h]
  · intro s
    unfold LineWorld.availableActions
    split_ifs <;> simp

/-- Witness for C8 (amended): the GridWorld conjunct instantiated at the

    constructed environment, whose size is 4. -/
theorem claim8_amended_witness :
    GridWorld.new.size = 4
    ∧ (GridWorld.availableActions GridWorld.new = []
        ↔ GridWorld.isGameOver GridWorld.new = true) :=
  ⟨rfl, claim8_amended.1 GridWorld.new rfl⟩

/-- Claim C9, refuted on the code: `OffPolicyMonteCarloControl::get_best_action`

    and `PolicyIteration::get_best_action` return action 0 on an empty
    `available_actions` list (off_montecarlo_control.rs lines 185-187,
    policy_iteration.rs lines 158-160) instead of failing. -/
theorem claim9_counterexample :
    OffPolicyMonteCarloControl.getBestAction (fun _ _ => 0) 0 [] = 0
    ∧ PolicyIteration.getBestAction (fun _ => 0) (fun _ => 0) 0 [] = 0 :=
  ⟨rfl, rfl⟩

/-- Claim C9 as amended: with an empty `available_actions` list,

    `get_best_action` of Q-Learning, Dyna-Q, DQN, on-policy Monte-Carlo and
    REINFORCE fails by an out-of-bounds index panic, and SARSA and Value
    Iteration fail by an explicit panic, but `OffPolicyMonteCarloControl`
    and `PolicyIteration` silently return action 0. -/
theorem claim9_amended :
    (∀ (q : Nat → Nat → ℚ) (s : Nat), QLearning.getBestAction q s [] = none)
    ∧ (∀ (q : Nat → Nat → ℚ) (s : Nat), Sarsa.getBestAction q s [] = none)
    ∧ (∀ (q : Nat → Nat → ℚ) (s : Nat), DynaQ.getBestAction q s [] = none)
    ∧ (∀ (w : Nat → Nat → ℚ) (s : Nat), DQN.getBestAction w s [] = none)
    ∧ (∀ (q : Nat → Nat → ℚ) (s : Nat), MonteCarloControl.getBestAction q s [] = none)
    ∧ (∀ probs : Nat → ℚ, Reinforce.getBestAction probs [] = none)
    ∧ (∀ (q : Nat → Nat → ℚ) (n s : Nat), ValueIteration.getBestAction q n s [] = none)
    ∧ (∀ (q : Nat → Nat → ℚ) (s : Nat), OffPolicyMonteCarloControl.getBestAction q s [] = 0)
    ∧ (∀ (pol : Nat → Nat) (v : Nat → ℚ) (s : Nat),
        PolicyIteration.getBestAction pol v s [] = 0) :=
  ⟨fun _ _ => rfl, fun _ _ => rfl, fun _ _ => rfl, fun _ _ => rfl, fun _ _ => rfl,
   fun _ => rfl, fun _ _ _ => rfl, fun _ _ => rfl, fun _ _ _ => rfl⟩

end ProjetDL
